import Mathlib

/-!
# Verification of the SM-2 spaced-repetition core of the Turkish learning app

Shallow embedding of the spaced-repetition scheduler of
`src/js/games/flashcards.js` (`updateSRS`, `getSRSForChunk`,
`difficultyToQuality`, `sortByPriority`) and the storage layer of
`src/js/storage.js` (`load`, `save`, `getSRSData`, `saveSRSData`).

Modelling choices:
* JavaScript numbers used as integers (intervals, repetition counts,
  timestamps, quality grades) become `ℤ` / `ℕ`; the floating-point ease
  factor becomes `ℚ` with the decimal literals of the source as exact
  rationals.
* `Math.round` on a nonnegative JS number is `⌊x + 1/2⌋` (half away from
  zero, which for the values occurring here is half-up); we embed it as
  `jsRound`.
* The persisted SRS mapping (one JSON blob under the key
  `turkish_app_srs`) is modelled as an association list
  `List (String × SRSRecord)`; the blob itself is a `StoredBlob` that can
  be absent, present-but-unparseable (`corrupt`), or a parsed mapping.
* `localStorage.setItem` is an external collaborator; its behaviour on one
  call is a `WriteOutcome`: success, a `QuotaExceededError`, or some other
  exception.  `save` (storage.js lines 26–39) turns these into a normal
  return, a thrown `STORAGE_FULL` error, and a `false` return respectively.
-/

namespace TurkishSRS

/-- SRS record per chunk, as stored by `flashcards.js`
(`{interval, easeFactor, nextReview, repetitions}`). -/
structure SRSRecord where
  interval : ℤ
  easeFactor : ℚ
  nextReview : ℤ
  repetitions : ℕ
deriving DecidableEq, Repr

/-- The default record produced for a chunk with no stored data
(flashcards.js lines 20–25 and 36–41), with `DEFAULT_EASE_FACTOR = 2.5`. -/
def defaultRecord : SRSRecord :=
  { interval := 0, easeFactor := 5/2, nextReview := 0, repetitions := 0 }

/-- Constant `MIN_EASE_FACTOR` (flashcards.js line 11). -/
def MIN_EASE_FACTOR : ℚ := 13/10

/-- JavaScript `Math.round`: round half toward positive infinity. -/
def jsRound (x : ℚ) : ℤ := ⌊x + 1/2⌋

/-- The pure SM-2 step of `updateSRS` (flashcards.js lines 43–75): from the
current record, the quality grade and the current time (`Date.now()`),
compute the updated record.  Faithful to the source: the interval branch
uses the pre-update ease factor, the ease-factor update is applied on both
branches and clamped below at `MIN_EASE_FACTOR`, and
`nextReview = now + interval * 24*60*60*1000`. -/
def updateSRSCore (current : SRSRecord) (quality : ℤ) (now : ℤ) : SRSRecord :=
  let interval : ℤ :=
    if 3 ≤ quality then
      if current.repetitions = 0 then 1
      else if current.repetitions = 1 then 6
      else jsRound ((current.interval : ℚ) * current.easeFactor)
    else 1
  let repetitions : ℕ := if 3 ≤ quality then current.repetitions + 1 else 0
  let ef : ℚ :=
    current.easeFactor +
      (1/10 - ((5 - quality : ℤ) : ℚ) * (2/25 + ((5 - quality : ℤ) : ℚ) * (1/50)))
  let easeFactor : ℚ := if ef < MIN_EASE_FACTOR then MIN_EASE_FACTOR else ef
  { interval := interval
    easeFactor := easeFactor
    nextReview := now + interval * (24 * 60 * 60 * 1000)
    repetitions := repetitions }

/-- Mapping `difficultyToQuality` (flashcards.js lines 88–95). -/
def difficultyToQuality (difficulty : String) : ℤ :=
  if difficulty = "easy" then 5
  else if difficulty = "medium" then 3
  else if difficulty = "hard" then 1
  else 3

/-- A sequence of grading events `(quality, now)` applied in order to a
record, each through the SM-2 step. -/
def applyGrades (start : SRSRecord) (events : List (ℤ × ℤ)) : SRSRecord :=
  events.foldl (fun r e => updateSRSCore r e.1 e.2) start

/-! ## Storage layer -/

/-- The parsed SRS mapping: chunk id to record, as the JSON object held
under the single storage key `turkish_app_srs`. -/
abbrev SRSData := List (String × SRSRecord)

/-- Lookup of `srsData[chunkId]` in the mapping. -/
def lookupSRS : SRSData → String → Option SRSRecord
  | [], _ => none
  | (k, v) :: rest, id => if k = id then some v else lookupSRS rest id

/-- The assignment `srsData[chunkId] = updated` on a JS object: replace the
existing entry in place, or append a new one. -/
def setSRS : SRSData → String → SRSRecord → SRSData
  | [], id, r => [(id, r)]
  | (k, v) :: rest, id, r =>
    if k = id then (id, r) :: rest else (k, v) :: setSRS rest id r

/-- State of the persisted blob under the SRS storage key: absent,
present but unparseable JSON, or a parsed mapping. -/
inductive StoredBlob where
  | absent
  | corrupt
  | val (m : SRSData)
deriving DecidableEq

/-- Reader `getSRSData` (storage.js lines 195–197): `load` returns `null` both for
an absent key and for unparseable JSON (the `catch` in lines 53–56), and
`|| {}` turns `null` into the empty mapping. -/
def getSRSData : StoredBlob → SRSData
  | .val m => m
  | _ => []

/-- Reader `getSRSForChunk` (flashcards.js lines 18–26): stored record or
default. -/
def getSRSForChunk (blob : StoredBlob) (chunkId : String) : SRSRecord :=
  (lookupSRS (getSRSData blob) chunkId).getD defaultRecord

/-- Behaviour of the external `localStorage.setItem` call on one write. -/
inductive WriteOutcome where
  | ok
  | quotaExceeded
  | otherError
deriving DecidableEq

/-- Function `updateSRS` (flashcards.js lines 34–81) together with `save`
(storage.js lines 26–39): read the blob, compute the new record, write the
whole mapping back.  Returns the resulting persisted blob and either the
updated record (normal return) or the thrown error message.  On
`QuotaExceededError`, `save` throws `STORAGE_FULL`, which propagates out of
`updateSRS`; on any other `setItem` failure `save` returns `false`, which
`updateSRS` ignores and returns `updated` anyway; in both failure cases the
persisted blob is unchanged. -/
def updateSRS (blob : StoredBlob) (w : WriteOutcome) (chunkId : String)
    (quality now : ℤ) : StoredBlob × Except String SRSRecord :=
  let current := (lookupSRS (getSRSData blob) chunkId).getD defaultRecord
  let updated := updateSRSCore current quality now
  let newData := setSRS (getSRSData blob) chunkId updated
  match w with
  | .ok => (.val newData, .ok updated)
  | .quotaExceeded => (blob, .error "STORAGE_FULL")
  | .otherError => (blob, .ok updated)

/-! ## Theorems -/

/-- C1: For every stored record and quality `≥ 3`, the pass branch of the
SM-2 step: interval `1` when the previous repetition count is `0`, `6` when
it is `1`, otherwise `round(previousInterval * previousEaseFactor)` with the
pre-update ease factor; the repetition count increments.  In particular a
first pass on the default record gives interval `1`, count `1`, and a
second consecutive pass gives interval `6`, count `2`. -/
theorem C1_pass_intervals (r : SRSRecord) (q t q' t' : ℤ)
    (hq : 3 ≤ q) (hq' : 3 ≤ q') :
    ((updateSRSCore r q t).interval =
        if r.repetitions = 0 then 1
        else if r.repetitions = 1 then 6
        else jsRound ((r.interval : ℚ) * r.easeFactor)) ∧
    (updateSRSCore r q t).repetitions = r.repetitions + 1 ∧
    (updateSRSCore defaultRecord q t).interval = 1 ∧
    (updateSRSCore defaultRecord q t).repetitions = 1 ∧
    (updateSRSCore (updateSRSCore defaultRecord q t) q' t').interval = 6 ∧
    (updateSRSCore (updateSRSCore defaultRecord q t) q' t').repetitions = 2 := by
  refine ⟨?_, ?_, ?_, ?_, ?_, ?_⟩ <;>
    simp [updateSRSCore, defaultRecord, hq, hq']

/-- Witness for C1 at quality `5` twice. -/
theorem C1_pass_intervals_witness :
    (updateSRSCore defaultRecord 5 0).interval = 1 ∧
    (updateSRSCore defaultRecord 5 0).repetitions = 1 ∧
    (updateSRSCore (updateSRSCore defaultRecord 5 0) 5 86400000).interval = 6 ∧
    (updateSRSCore (updateSRSCore defaultRecord 5 0) 5 86400000).repetitions = 2 := by
  have h := C1_pass_intervals defaultRecord 5 0 5 86400000 (by decide) (by decide)
  exact ⟨h.2.2.1, h.2.2.2.1, h.2.2.2.2.1, h.2.2.2.2.2⟩

/-- C2: for every prior record, a quality `< 3` resets: interval `1`,
repetition count `0`, regardless of prior state. -/
theorem C2_fail_resets (r : SRSRecord) (q t : ℤ) (hq : q < 3) :
    (updateSRSCore r q t).interval = 1 ∧ (updateSRSCore r q t).repetitions = 0 := by
  have hq' : ¬ 3 ≤ q := not_le.mpr hq
  constructor <;> simp [updateSRSCore, hq']

/-- Witness for C2: failing a record with a nontrivial prior state. -/
theorem C2_fail_resets_witness :
    (updateSRSCore ⟨17, 2, 5, 9⟩ 1 100).interval = 1 ∧
    (updateSRSCore ⟨17, 2, 5, 9⟩ 1 100).repetitions = 0 :=
  C2_fail_resets ⟨17, 2, 5, 9⟩ 1 100 (by decide)

/-- The ease-factor clamp makes the ease factor of every graded record at least
`MIN_EASE_FACTOR` (flashcards.js lines 63–66). -/
theorem easeFactor_ge_min (r : SRSRecord) (q t : ℤ) :
    MIN_EASE_FACTOR ≤ (updateSRSCore r q t).easeFactor := by
  simp only [updateSRSCore]
  split
  · exact le_refl _
  · exact le_of_not_lt (by assumption)

/-- Grading sequences starting from an ease factor at or above the floor
stay at or above the floor. -/
theorem applyGrades_easeFactor_ge_min (events : List (ℤ × ℤ)) :
    ∀ r : SRSRecord, MIN_EASE_FACTOR ≤ r.easeFactor →
      MIN_EASE_FACTOR ≤ (applyGrades r events).easeFactor := by
  induction events with
  | nil => intro r h; exact h
  | cons e es ih =>
    intro r _
    exact ih (updateSRSCore r e.1 e.2) (easeFactor_ge_min r e.1 e.2)

/-- C3: on every call the ease factor is updated to
`easeFactor + (0.1 - (5 - quality) * (0.08 + (5 - quality) * 0.02))` and
then clamped below at `1.3`; consequently, along every sequence of grading
events starting from the default record (ease factor `2.5`), the ease
factor stays `≥ 1.3`. -/
theorem C3_ease_floor :
    (∀ (r : SRSRecord) (q t : ℤ),
      (updateSRSCore r q t).easeFactor =
        max (r.easeFactor +
          (1/10 - ((5 - q : ℤ) : ℚ) * (2/25 + ((5 - q : ℤ) : ℚ) * (1/50))))
          (13/10)) ∧
    ∀ events : List (ℤ × ℤ),
      (13 : ℚ)/10 ≤ (applyGrades defaultRecord events).easeFactor := by
  constructor
  · intro r q t
    simp only [updateSRSCore, MIN_EASE_FACTOR]
    rcases lt_or_le
        (r.easeFactor +
          (1/10 - ((5 - q : ℤ) : ℚ) * (2/25 + ((5 - q : ℤ) : ℚ) * (1/50))))
        ((13 : ℚ)/10) with h | h
    · rw [if_pos h, max_eq_right h.le]
    · rw [if_neg (not_lt.mpr h), max_eq_left h]
  · intro events
    exact applyGrades_easeFactor_ge_min events defaultRecord (by norm_num [defaultRecord, MIN_EASE_FACTOR])

/-- Invariant of records reachable by grading: ease factor at or above the
floor, and a positive interval once the item has been repeated. -/
def ReachInv (r : SRSRecord) : Prop :=
  MIN_EASE_FACTOR ≤ r.easeFactor ∧ (r.repetitions ≠ 0 → 1 ≤ r.interval)

theorem reachInv_default : ReachInv defaultRecord := by
  constructor
  · norm_num [defaultRecord, MIN_EASE_FACTOR]
  · intro h; exact absurd rfl h

/-- Under the reachability invariant, every grading produces an interval of
at least one day. -/
theorem updateSRSCore_interval_pos (r : SRSRecord) (q t : ℤ) (h : ReachInv r) :
    1 ≤ (updateSRSCore r q t).interval := by
  simp only [updateSRSCore]
  split
  · split
    · exact le_refl 1
    · split
      · norm_num
      · rename_i hq h0 h1
        have hi : 1 ≤ r.interval := h.2 h0
        have hef : MIN_EASE_FACTOR ≤ r.easeFactor := h.1
        have hx : (1 : ℚ) ≤ (r.interval : ℚ) * r.easeFactor := by
          calc (1 : ℚ) = 1 * 1 := (one_mul 1).symm
          _ ≤ (r.interval : ℚ) * r.easeFactor := by
              apply mul_le_mul
              · exact_mod_cast hi
              · exact le_trans (by norm_num [MIN_EASE_FACTOR]) hef
              · norm_num
              · exact_mod_cast le_trans (by norm_num) hi
        rw [jsRound, Int.le_floor]
        push_cast
        linarith
  · exact le_refl 1

theorem updateSRSCore_reachInv (r : SRSRecord) (q t : ℤ) (h : ReachInv r) :
    ReachInv (updateSRSCore r q t) :=
  ⟨easeFactor_ge_min r q t, fun _ => updateSRSCore_interval_pos r q t h⟩

theorem applyGrades_reachInv (events : List (ℤ × ℤ)) :
    ∀ r : SRSRecord, ReachInv r → ReachInv (applyGrades r events) := by
  induction events with
  | nil => intro r h; exact h
  | cons e es ih =>
    intro r h
    exact ih (updateSRSCore r e.1 e.2) (updateSRSCore_reachInv r e.1 e.2 h)

/-- C4: for every grading event on a record reached from the default by any
prior grading sequence, the new `nextReview` equals the grading time plus
`interval * 86,400,000` milliseconds, and is strictly greater than the
grading time. -/
theorem C4_next_review (events : List (ℤ × ℤ)) (q t : ℤ) :
    (updateSRSCore (applyGrades defaultRecord events) q t).nextReview =
      t + (updateSRSCore (applyGrades defaultRecord events) q t).interval * 86400000 ∧
    t < (updateSRSCore (applyGrades defaultRecord events) q t).nextReview := by
  have hnr : ∀ (r : SRSRecord) (q' t' : ℤ),
      (updateSRSCore r q' t').nextReview =
        t' + (updateSRSCore r q' t').interval * 86400000 := by
    intro r q' t'
    simp only [updateSRSCore]
    norm_num
  have hinv : ReachInv (applyGrades defaultRecord events) :=
    applyGrades_reachInv events defaultRecord reachInv_default
  have hint : 1 ≤ (updateSRSCore (applyGrades defaultRecord events) q t).interval :=
    updateSRSCore_interval_pos _ q t hinv
  refine ⟨hnr _ q t, ?_⟩
  rw [hnr _ q t]
  nlinarith

/-- C9: the difficulty labels map to qualities `hard ↦ 1`, `medium ↦ 3`,
`easy ↦ 5`, every other label maps to `3`, and hence the UI grading path
only produces qualities in `{1, 3, 5}`. -/
theorem C9_difficulty_mapping :
    difficultyToQuality "hard" = 1 ∧
    difficultyToQuality "medium" = 3 ∧
    difficultyToQuality "easy" = 5 ∧
    (∀ s : String, s ≠ "hard" → s ≠ "medium" → s ≠ "easy" →
      difficultyToQuality s = 3) ∧
    ∀ s : String,
      difficultyToQuality s = 1 ∨ difficultyToQuality s = 3 ∨
        difficultyToQuality s = 5 := by
  refine ⟨by decide, by decide, by decide, ?_, ?_⟩
  · intro s h1 h2 h3
    simp [difficultyToQuality, h1, h2, h3]
  · intro s
    unfold difficultyToQuality
    split
    · right; right; rfl
    · split
      · right; left; rfl
      · split
        · left; rfl
        · right; left; rfl

/-- Witness for C9 at the concrete unknown label `"weird"`. -/
theorem C9_difficulty_mapping_witness : difficultyToQuality "weird" = 3 :=
  C9_difficulty_mapping.2.2.2.1 "weird" (by decide) (by decide) (by decide)

theorem lookupSRS_setSRS_self (m : SRSData) (chunkId : String) (r : SRSRecord) :
    lookupSRS (setSRS m chunkId r) chunkId = some r := by
  induction m with
  | nil => simp [setSRS, lookupSRS]
  | cons kv rest ih =>
    by_cases hk : kv.1 = chunkId
    · simp [setSRS, hk, lookupSRS]
    · simp [setSRS, hk, lookupSRS, ih]

theorem lookupSRS_setSRS_ne (m : SRSData) (chunkId other : String)
    (r : SRSRecord) (h : other ≠ chunkId) :
    lookupSRS (setSRS m chunkId r) other = lookupSRS m other := by
  induction m with
  | nil => simp [setSRS, lookupSRS, Ne.symm h]
  | cons kv rest ih =>
    by_cases hk : kv.1 = chunkId
    · simp [setSRS, hk, lookupSRS, Ne.symm h]
    · simp [setSRS, hk, lookupSRS, ih]

/-- C6: with a successful store write, `updateSRS` followed by
`getSRSForChunk` on the resulting store reads back exactly the record that
`updateSRS` returned. -/
theorem C6_round_trip (blob : StoredBlob) (chunkId : String) (q t : ℤ) :
    (updateSRS blob .ok chunkId q t).2 =
      .ok (getSRSForChunk (updateSRS blob .ok chunkId q t).1 chunkId) := by
  simp [updateSRS, getSRSForChunk, getSRSData, lookupSRS_setSRS_self]

/-- C7: `getSRSForChunk` totally: the stored record when one exists,
otherwise the default record `{interval 0, easeFactor 2.5, nextReview 0,
repetitions 0}`; an absent or unparseable persisted blob reads as the empty
mapping, so every chunk then gets the default record instead of an error. -/
theorem C7_default_on_missing :
    (∀ (m : SRSData) (chunkId : String) (r : SRSRecord),
      lookupSRS m chunkId = some r → getSRSForChunk (.val m) chunkId = r) ∧
    (∀ (m : SRSData) (chunkId : String),
      lookupSRS m chunkId = none → getSRSForChunk (.val m) chunkId = defaultRecord) ∧
    (∀ chunkId : String, getSRSForChunk .absent chunkId = defaultRecord) ∧
    (∀ chunkId : String, getSRSForChunk .corrupt chunkId = defaultRecord) ∧
    defaultRecord =
      { interval := 0, easeFactor := 5/2, nextReview := 0, repetitions := 0 } := by
  refine ⟨?_, ?_, ?_, ?_, rfl⟩
  · intro m chunkId r h
    simp [getSRSForChunk, getSRSData, h]
  · intro m chunkId h
    simp [getSRSForChunk, getSRSData, h]
  · intro chunkId; rfl
  · intro chunkId; rfl

/-- Witness for C7: a concrete stored record is read back, and a corrupt
blob yields the default record. -/
theorem C7_default_on_missing_witness :
    getSRSForChunk (.val [("a", ⟨6, 2, 50, 2⟩)]) "a" = ⟨6, 2, 50, 2⟩ ∧
    getSRSForChunk (.val [("a", ⟨6, 2, 50, 2⟩)]) "b" = defaultRecord ∧
    getSRSForChunk .corrupt "a" = defaultRecord :=
  ⟨C7_default_on_missing.1 [("a", ⟨6, 2, 50, 2⟩)] "a" ⟨6, 2, 50, 2⟩ (by decide),
   C7_default_on_missing.2.1 [("a", ⟨6, 2, 50, 2⟩)] "b" (by decide),
   C7_default_on_missing.2.2.2.1 "a"⟩

/-- C8 counterexample: when `localStorage.setItem` fails with an error
other than `QuotaExceededError`, `save` returns `false` (storage.js lines
36–37) and `updateSRS` ignores that return value (flashcards.js line 78),
so the call still returns the updated record normally (`.ok`) even though
the persisted blob is unchanged: the write failure is silently dropped, not
surfaced, refuting the claim that every store write failure is surfaced to
the caller of `updateSRS`. -/
theorem C8_counterexample :
    updateSRS .absent .otherError "a" 5 0 =
      (.absent, .ok { interval := 1, easeFactor := 13/5,
                      nextReview := 86400000, repetitions := 1 }) := by
  have h : updateSRSCore defaultRecord 5 0 =
      { interval := 1, easeFactor := 13/5,
        nextReview := 86400000, repetitions := 1 } := by
    simp only [updateSRSCore, defaultRecord, SRSRecord.mk.injEq]
    norm_num [MIN_EASE_FACTOR]
  simp [updateSRS, getSRSData, lookupSRS, h]

/-- C8 amended: when the store write fails with `QuotaExceededError`
(capacity exceeded), `save` throws `STORAGE_FULL`, which propagates out of
`updateSRS` to its caller, and the persisted blob is unchanged; when the
write fails with any other error the persisted blob is likewise unchanged,
but the failure is reported only by the `false` return of `save`, which
`updateSRS` ignores. -/
theorem C8_quota_failure_surfaced (blob : StoredBlob) (chunkId : String) (q t : ℤ) :
    updateSRS blob .quotaExceeded chunkId q t = (blob, .error "STORAGE_FULL") ∧
    (updateSRS blob .otherError chunkId q t).1 = blob := by
  exact ⟨rfl, rfl⟩

/-- C10: `updateSRS` on one chunk id leaves the persisted record (or
absence) of every other chunk id unchanged, for every write outcome, even
though the whole mapping is rewritten as one blob. -/
theorem C10_frame (blob : StoredBlob) (w : WriteOutcome)
    (chunkId other : String) (q t : ℤ) (h : other ≠ chunkId) :
    lookupSRS (getSRSData (updateSRS blob w chunkId q t).1) other =
      lookupSRS (getSRSData blob) other := by
  cases w with
  | ok => simp [updateSRS, getSRSData, lookupSRS_setSRS_ne _ _ _ _ h]
  | quotaExceeded => rfl
  | otherError => rfl

/-- Witness for C10: updating chunk `"a"` leaves the stored record of
chunk `"b"` intact. -/
theorem C10_frame_witness :
    lookupSRS
        (getSRSData (updateSRS (.val [("b", ⟨6, 2, 50, 2⟩)]) .ok "a" 5 0).1) "b" =
      lookupSRS (getSRSData (.val [("b", ⟨6, 2, 50, 2⟩)])) "b" :=
  C10_frame (.val [("b", ⟨6, 2, 50, 2⟩)]) .ok "a" "b" 5 0 (by decide)

/-! ## Priority sorter -/

/-- A flashcard chunk, opaque to the sorter beyond its id
(`sortByPriority` only reads `a.id`). -/
structure Chunk where
  id : String
deriving DecidableEq, Repr

/-- The `nextReview` the comparator sees for a chunk:
`(srsData[x.id] || { nextReview: 0 }).nextReview`
(flashcards.js lines 108–109). -/
def nextReviewOf (m : SRSData) (c : Chunk) : ℤ :=
  match lookupSRS m c.id with
  | some r => r.nextReview
  | none => 0

/-- The comparator passed to `Array.prototype.sort`
(flashcards.js lines 107–117). -/
def srsCompare (m : SRSData) (a b : Chunk) : ℤ :=
  if nextReviewOf m a = 0 ∧ nextReviewOf m b ≠ 0 then -1
  else if nextReviewOf m b = 0 ∧ nextReviewOf m a ≠ 0 then 1
  else nextReviewOf m a - nextReviewOf m b

/-- The order induced by the comparator: `a` may come before `b` exactly
when the comparator does not demand the opposite order. -/
def leSRS (m : SRSData) (a b : Chunk) : Prop := srsCompare m a b ≤ 0

instance leSRS.decidableRel (m : SRSData) : DecidableRel (leSRS m) := fun a b =>
  inferInstanceAs (Decidable (srsCompare m a b ≤ 0))

/-- Sorter `sortByPriority` (flashcards.js lines 104–118): `[...chunks]` copies the
input (the input list is not mutated) and `Array.prototype.sort` is
required by ECMAScript to be a stable sort consistent with the comparator;
we embed it as the stable insertion sort over `leSRS`. -/
def sortByPriority (m : SRSData) (chunks : List Chunk) : List Chunk :=
  List.insertionSort (leSRS m) chunks

/-- The order of the comparator is the order of the key `⊥` for "new"
(`nextReview` 0) and `nextReview` otherwise. -/
def sortKey (m : SRSData) (c : Chunk) : WithBot ℤ :=
  if nextReviewOf m c = 0 then ⊥ else (nextReviewOf m c : WithBot ℤ)

theorem leSRS_iff_sortKey (m : SRSData) (a b : Chunk) :
    leSRS m a b ↔ sortKey m a ≤ sortKey m b := by
  unfold leSRS srsCompare sortKey
  by_cases ha : nextReviewOf m a = 0 <;> by_cases hb : nextReviewOf m b = 0 <;>
    simp [ha, hb, sub_nonpos, WithBot.coe_le_coe, le_bot_iff, WithBot.coe_ne_bot]

instance leSRS.isTotal (m : SRSData) : IsTotal Chunk (leSRS m) :=
  ⟨fun a b => by
    rw [leSRS_iff_sortKey, leSRS_iff_sortKey]
    exact le_total _ _⟩

instance leSRS.isTrans (m : SRSData) : IsTrans Chunk (leSRS m) :=
  ⟨fun a b c hab hbc => by
    rw [leSRS_iff_sortKey] at hab hbc ⊢
    exact le_trans hab hbc⟩

/-- C5: `sortByPriority` returns a permutation of the input (a fresh list,
the input being untouched in this pure model); chunks whose seen
`nextReview` is `0` (no record) precede all others; among chunks with a
nonzero `nextReview` the order is ascending; and the relative input order
of the "new" chunks is preserved (stability). -/
theorem C5_sort_by_priority (m : SRSData) (chunks : List Chunk) :
    (sortByPriority m chunks).Perm chunks ∧
    (sortByPriority m chunks).Pairwise
      (fun a b => nextReviewOf m b = 0 → nextReviewOf m a = 0) ∧
    (sortByPriority m chunks).Pairwise
      (fun a b => nextReviewOf m a ≠ 0 → nextReviewOf m b ≠ 0 →
        nextReviewOf m a ≤ nextReviewOf m b) ∧
    (sortByPriority m chunks).filter (fun c => decide (nextReviewOf m c = 0)) =
      chunks.filter (fun c => decide (nextReviewOf m c = 0)) := by
  have hsorted : (sortByPriority m chunks).Pairwise (leSRS m) :=
    List.sorted_insertionSort (leSRS m) chunks
  have hperm : (sortByPriority m chunks).Perm chunks :=
    List.perm_insertionSort (leSRS m) chunks
  refine ⟨hperm, ?_, ?_, ?_⟩
  · refine hsorted.imp ?_
    intro a b hab hb0
    rw [leSRS_iff_sortKey] at hab
    by_contra ha0
    rw [sortKey, sortKey, if_neg ha0, if_pos hb0] at hab
    exact WithBot.coe_ne_bot (le_bot_iff.mp hab)
  · refine hsorted.imp ?_
    intro a b hab ha0 hb0
    rw [leSRS_iff_sortKey, sortKey, sortKey, if_neg ha0, if_neg hb0] at hab
    exact_mod_cast hab
  · have hmem : ∀ c ∈ chunks.filter (fun c => decide (nextReviewOf m c = 0)),
        nextReviewOf m c = 0 := by
      intro c hc
      simpa using List.of_mem_filter hc
    have hnewle : ∀ x y : Chunk,
        nextReviewOf m x = 0 → nextReviewOf m y = 0 → leSRS m x y := by
      intro x y hx hy
      unfold leSRS srsCompare
      simp [hx, hy]
    have hpair : (chunks.filter (fun c => decide (nextReviewOf m c = 0))).Pairwise
        (leSRS m) :=
      List.pairwise_of_forall_mem_list
        (fun a ha b hb => hnewle a b (hmem a ha) (hmem b hb))
    have hsub : List.Sublist (chunks.filter (fun c => decide (nextReviewOf m c = 0)))
        (sortByPriority m chunks) :=
      List.sublist_insertionSort hpair (List.filter_sublist _)
    have hfe : (chunks.filter (fun c => decide (nextReviewOf m c = 0))).filter
        (fun c => decide (nextReviewOf m c = 0)) =
        chunks.filter (fun c => decide (nextReviewOf m c = 0)) :=
      List.filter_eq_self.mpr (fun a ha => (List.mem_filter.mp ha).2)
    have hsub2 : List.Sublist (chunks.filter (fun c => decide (nextReviewOf m c = 0)))
        ((sortByPriority m chunks).filter (fun c => decide (nextReviewOf m c = 0))) := by
      have h2 := hsub.filter (fun c => decide (nextReviewOf m c = 0))
      rwa [hfe] at h2
    have hlen : ((sortByPriority m chunks).filter
          (fun c => decide (nextReviewOf m c = 0))).length =
        (chunks.filter (fun c => decide (nextReviewOf m c = 0))).length :=
      (hperm.filter _).length_eq
    exact (hsub2.eq_of_length hlen.symm).symm

end TurkishSRS
